import Mathlib

/- Verification development for the sytralrt refresh-and-snapshot core.
   Embedded Go sources: loader.go and cmd/sytral-rt/main.go.  Repository
   files that loader.go references but that are not available (the line
   consumers, the data manager, the XML record types) are modelled from the
   specification, as marked in the corresponding doc comments.  The Go
   standard library (time, encoding/csv, encoding/xml) is an external
   dependency and is modelled at the level of its documented semantics. -/

namespace Sytralrt

/- ## Wall-clock time model (Go package time, external dependency)

Times in the single fixed location (Europe/Paris) are modelled as
wall-clock calendar tuples.  goNorm, goDayNorm, goDate and addDate follow
the normalization Go documents and implements for time.Date and
time.AddDate. -/

/-- A wall-clock timestamp in the fixed location: calendar day plus time of
day. -/
structure DateTime where
  year : Int
  month : Int
  day : Int
  hour : Int
  minute : Int
  second : Int
deriving DecidableEq, Repr

/-- Gregorian leap-year rule (Go time.isLeap). -/
def isLeap (y : Int) : Bool :=
  y % 4 == 0 && (y % 100 != 0 || y % 400 == 0)

/-- Number of days in month m of year y, months numbered 1 to 12. -/
def daysInMonth (y m : Int) : Int :=
  if m = 2 then (if isLeap y then 29 else 28)
  else if m = 4 ∨ m = 6 ∨ m = 9 ∨ m = 11 then 30
  else 31

/-- Go time.norm: carry lo into the range 0 ≤ lo < base, adjusting hi.
Go integer division truncates toward zero, hence Int.div. -/
def goNorm (hi lo base : Int) : Int × Int :=
  let p :=
    if lo < 0 then
      let n := Int.tdiv (-lo - 1) base + 1
      (hi - n, lo + n * base)
    else (hi, lo)
  if base ≤ p.2 then
    let n := Int.tdiv p.2 base
    (p.1 + n, p.2 - n * base)
  else p

/-- Serial day number of a civil date (standard civil-calendar conversion);
used only to resolve an out-of-range day component, mirroring how Go
resolves the day through an absolute day count. -/
def daysFromCivil (y m d : Int) : Int :=
  let y1 := if m ≤ 2 then y - 1 else y
  let era := Int.ediv y1 400
  let yoe := y1 - era * 400
  let mp := Int.emod (m + 9) 12
  let doy := Int.ediv (153 * mp + 2) 5 + d - 1
  let doe := yoe * 365 + Int.ediv yoe 4 - Int.ediv yoe 100 + doy
  era * 146097 + doe

/-- Civil date of a serial day number, inverse direction of daysFromCivil. -/
def civilFromDays (z : Int) : Int × Int × Int :=
  let era := Int.ediv z 146097
  let doe := z - era * 146097
  let yoe :=
    Int.ediv (doe - Int.ediv doe 1460 + Int.ediv doe 36524 - Int.ediv doe 146096) 365
  let y := yoe + era * 400
  let doy := doe - (365 * yoe + Int.ediv yoe 4 - Int.ediv yoe 100)
  let mp := Int.ediv (5 * doy + 2) 153
  let d := doy - Int.ediv (153 * mp + 2) 5 + 1
  let m := Int.emod (mp + 2) 12 + 1
  (if m ≤ 2 then y + 1 else y, m, d)

/-- Day normalization of Go time.Date: a day that lies within its month is
kept as is (Go counts day-1 days from the first of the month, which lands
back on the same day); an out-of-range day is resolved through the
absolute day count. -/
def goDayNorm (y m d : Int) : Int × Int × Int :=
  if 1 ≤ d ∧ d ≤ daysInMonth y m then (y, m, d)
  else civilFromDays (daysFromCivil y m d)

/-- Go time.Date in the fixed location, at the wall-clock level: the month
is normalized by time.norm with base 12, the clock fields by carrying
seconds into minutes, minutes into hours and hours into days, and the day
through the absolute day count. -/
def goDate (y m d h mi s : Int) : DateTime :=
  let pm := goNorm y (m - 1) 12
  let ps := goNorm mi s 60
  let ph := goNorm h ps.1 60
  let pd := goNorm d ph.1 24
  let dn := goDayNorm pm.1 (pm.2 + 1) pd.1
  ⟨dn.1, dn.2.1, dn.2.2, pd.2, ph.2, ps.2⟩

/-- Go time.AddDate at the wall-clock level: shift year, month and day and
renormalize through time.Date, keeping the clock fields. -/
def addDate (t : DateTime) (years months days : Int) : DateTime :=
  goDate (t.year + years) (t.month + months) (t.day + days) t.hour t.minute t.second

/- ## Layout parsing (Go time.ParseInLocation, external dependency) -/

/-- Numeric value of a decimal digit character. -/
def digitVal (c : Char) : Option Int :=
  if c.isDigit then some ((c.toNat : Int) - 48) else none

/-- Fixed two-digit numeric field (Go getnum with fixed width). -/
def num2 (a b : Char) : Option Int := do
  let x ← digitVal a
  let y ← digitVal b
  pure (10 * x + y)

/-- Fixed four-digit numeric field (Go getnum4, the 2006 year field). -/
def num4 (a b c d : Char) : Option Int := do
  let x ← num2 a b
  let y ← num2 c d
  pure (100 * x + y)

/-- Layout match for the reference layout 2006-01-02: exactly four year
digits, a dash, two month digits, a dash, two day digits, nothing else. -/
def dateFields (s : String) : Option (Int × Int × Int) :=
  match s.toList with
  | [y1, y2, y3, y4, c1, m1, m2, c2, d1, d2] =>
    if c1 = '-' ∧ c2 = '-' then do
      let y ← num4 y1 y2 y3 y4
      let m ← num2 m1 m2
      let d ← num2 d1 d2
      pure (y, m, d)
    else none
  | _ => none

/-- Range checks Go parse applies to a calendar date: month 1 to 12 and day
1 to the number of days of that month of that year. -/
def validDate (y m d : Int) : Bool :=
  1 ≤ m && m ≤ 12 && 1 ≤ d && d ≤ daysInMonth y m

/-- Go time.ParseInLocation with layout 2006-01-02: layout match plus range
checks, yielding the calendar triple. -/
def parseDate (s : String) : Option (Int × Int × Int) :=
  match dateFields s with
  | none => none
  | some (y, m, d) => if validDate y m d then some (y, m, d) else none

/-- Layout match for the reference layout 15:04:05: two hour digits, a
colon, two minute digits, a colon, two second digits, nothing else. -/
def hourFields (s : String) : Option (Int × Int × Int) :=
  match s.toList with
  | [h1, h2, c1, m1, m2, c2, s1, s2] =>
    if c1 = ':' ∧ c2 = ':' then do
      let h ← num2 h1 h2
      let mi ← num2 m1 m2
      let se ← num2 s1 s2
      pure (h, mi, se)
    else none
  | _ => none

/-- Range checks Go parse applies to a clock time: hour 0 to 23, minute and
second 0 to 59. -/
def validHour (h mi s : Int) : Bool :=
  0 ≤ h && h < 24 && 0 ≤ mi && mi < 60 && 0 ≤ s && s < 60

/-- Go time.ParseInLocation with layout 15:04:05: the date parts missing
from the layout default to year 0, January 1. -/
def parseHour (s : String) : Option (Int × Int × Int) :=
  match hourFields s with
  | none => none
  | some (h, mi, se) => if validHour h mi se then some (h, mi, se) else none

/- ## CalculateDate (loader.go) -/

/-- Modelled from the spec: the XML header block carrying a date string and
a separate time-of-day string (the struct lives in a repository file that
is not available; loader.go reads its fields Date and Hour). -/
structure Info where
  Date : String
  Hour : String
deriving DecidableEq, Repr

/-- Failure taxonomy of a refresh cycle (spec section 7): retrieval
failure, wrong delimited field count, consumer rejection, XML decode
failure, unknown charset, date or hour parse failure. -/
inductive LoadError where
  | retrieval
  | fieldCount
  | badRecord
  | decode
  | unknownCharset
  | dateParse
  | hourParse
deriving DecidableEq, Repr

/-- CalculateDate (loader.go lines 186 to 201): parse the date string with
layout 2006-01-02 and the hour string with layout 15:04:05 in the fixed
location, then combine them as hour.AddDate(date.Year, date.Month - 1,
date.Day - 1). -/
def CalculateDate (info : Info) : Except LoadError DateTime :=
  match parseDate info.Date with
  | none => .error .dateParse
  | some (y, m, d) =>
    match parseHour info.Hour with
    | none => .error .hourParse
    | some (h, mi, s) =>
      .ok (addDate ⟨0, 1, 1, h, mi, s⟩ y (m - 1) (d - 1))

/- ## Delimited-text loader (loader.go, with encoding/csv modelled) -/

/-- One delimited record: the list of its fields, as encoding/csv yields a
line after splitting it on the delimiter. -/
abbrev Record := List String

/-- LoadDataOptions (loader.go lines 136 to 140). -/
structure LoadDataOptions where
  skipFirstLine : Bool
  delimiter : Char
  nbFields : Int

/-- Modelled from the spec: the polymorphic LineConsumer interface (its Go
declaration lives in a repository file that is not available): an
accumulator state, a per-line consume capability that may fail, and a
terminate capability run once at end of input.  The fixed location Go
passes to Consume is elided. -/
structure LineConsumer (σ : Type) where
  init : σ
  consume : σ → Record → Except LoadError σ
  terminate : σ → σ

/-- One read step of encoding/csv with FieldsPerRecord value fpr: a
positive fpr must equal the field count of the record read, fpr = 0 is set
to the field count of the first record read (so that following records
must match it), a negative fpr performs no check.  Returns the
FieldsPerRecord value for the next read. -/
def csvStep (fpr : Int) (r : Record) : Except LoadError Int :=
  if 0 < fpr then
    if (r.length : Int) = fpr then .ok fpr else .error .fieldCount
  else if fpr = 0 then .ok (r.length : Int)
  else .ok fpr

/-- Main loop of LoadDataWithOptions (loader.go lines 163 to 179) over the
records of the input: read one record through encoding/csv, skip the first
record read when skipFirstLine is set, hand every other one to the
consumer, and stop at the first error. -/
def loadLoop {σ : Type} (c : LineConsumer σ) :
    List Record → Bool → Int → σ → Except LoadError σ
  | [], _, _, s => .ok (c.terminate s)
  | r :: rs, skip, fpr, s =>
    match csvStep fpr r with
    | .error e => .error e
    | .ok fpr1 =>
      if skip then loadLoop c rs false fpr1 s
      else
        match c.consume s r with
        | .error e => .error e
        | .ok s1 => loadLoop c rs skip fpr1 s1

/-- LoadDataWithOptions (loader.go lines 151 to 183): run the loop with the
configured options from the consumer's initial state; on success the
consumer has been terminated and its accumulated data is the result. -/
def LoadDataWithOptions {σ : Type} (c : LineConsumer σ) (options : LoadDataOptions)
    (records : List Record) : Except LoadError σ :=
  loadLoop c records options.skipFirstLine options.nbFields c.init

/-- LoadData (loader.go lines 142 to 149): semicolon delimiter, exactly 8
fields per record, no header skip. -/
def LoadData {σ : Type} (c : LineConsumer σ) (records : List Record) :
    Except LoadError σ :=
  LoadDataWithOptions c ⟨false, ';', 8⟩ records

/-- Modelled from the spec: the departures line consumer (its Go file is
not available) accumulates every consumed line into the ordered collection
that finalize hands over as the candidate snapshot. -/
def departureConsumer : LineConsumer (List Record) :=
  ⟨[], fun s r => .ok (s ++ [r]), fun s => s⟩

/-- Modelled from the spec: the parkings line consumer (its Go file is not
available) accumulates every consumed line into the collection that
finalize hands over as the candidate snapshot. -/
def parkingConsumer : LineConsumer (List Record) :=
  ⟨[], fun s r => .ok (s ++ [r]), fun s => s⟩

/- ## Equipment XML loader (loader.go, with encoding/xml modelled) -/

/-- Modelled from the spec: one equipment element of the XML hierarchy,
carrying the equipment identifier, the containing line and station
identifiers and the operational status (the Go struct file is not
available). -/
structure XmlEquipment where
  id : String
  line : String
  station : String
  status : String
deriving DecidableEq, Repr

/-- Modelled from the spec: a station element and its nested equipments. -/
structure XmlStation where
  equipments : List XmlEquipment

/-- Modelled from the spec: a line element and its nested stations. -/
structure XmlLine where
  stations : List XmlStation

/-- Modelled from the spec: the data block of the document, holding the
hierarchy of lines. -/
structure XmlData where
  lines : List XmlLine

/-- Modelled from the spec: the document root, a header info block plus the
data block. -/
structure Root where
  info : Info
  data : XmlData

/-- Modelled from the spec: the equipment detail record of the final
collection, the fields of one element plus the shared updated-at stamp. -/
structure EquipmentDetail where
  id : String
  line : String
  station : String
  status : String
  updatedAt : DateTime
deriving DecidableEq, Repr

/-- Modelled from the spec: NewEquipmentDetail builds the record of one
equipment element with the shared updated-at stamp of the cycle. -/
def NewEquipmentDetail (e : XmlEquipment) (updatedAt : DateTime) : EquipmentDetail :=
  ⟨e.id, e.line, e.station, e.status, updatedAt⟩

/-- Insertion into the identifier-keyed mapping (the Go map assignment on
loader.go line 237): overwrite the entry holding that identifier when one
exists, append a new entry otherwise. -/
def insertEquipment (m : List EquipmentDetail) (ed : EquipmentDetail) :
    List EquipmentDetail :=
  if m.any (fun x => x.id = ed.id) then
    m.map (fun x => if x.id = ed.id then ed else x)
  else m ++ [ed]

/-- Document-order traversal of the equipment elements: lines, then
stations, then equipments (loader.go lines 230 to 240). -/
def allEquipments (r : Root) : List XmlEquipment :=
  r.data.lines.flatMap (fun l => l.stations.flatMap (fun s => s.equipments))

/-- Build the identifier-keyed mapping along a traversal, later insertions
overwriting earlier ones with the same identifier. -/
def buildEquipmentMap (updatedAt : DateTime) (es : List XmlEquipment) :
    List EquipmentDetail :=
  es.foldl (fun m e => insertEquipment m (NewEquipmentDetail e updatedAt)) []

/-- getCharsetReader (loader.go lines 295 to 301): the only supported
declared charset is ISO-8859-1. -/
def getCharsetReader (charset : String) : Except LoadError Unit :=
  if charset = "ISO-8859-1" then .ok () else .error .unknownCharset

/-- The declared encodings for which encoding/xml never consults
CharsetReader: the default encoding, utf-8, matched by ASCII
case-insensitive comparison (the code points of utf-8 are 117, 116, 102,
45, 56). -/
def isUtf8 (charset : String) : Bool :=
  charset.toList.map
      (fun c => if 65 ≤ c.toNat ∧ c.toNat ≤ 90 then c.toNat + 32 else c.toNat) =
    [117, 116, 102, 45, 56]

/-- A retrieved XML byte stream, modelled by the observable inputs of the
decode step: the character encoding the document declares, if any, and the
document it carries when well-formed. -/
structure XmlInput where
  declaredCharset : Option String
  doc : Option Root

/-- Decode step of LoadXmlData (loader.go lines 214 to 221): a declared
non-default charset goes through getCharsetReader and fails the load when
unsupported; a malformed document fails the decode. -/
def decodeXml (input : XmlInput) : Except LoadError Root :=
  match input.declaredCharset with
  | some c =>
    if isUtf8 c then
      match input.doc with
      | none => .error .decode
      | some r => .ok r
    else
      match getCharsetReader c with
      | .error e => .error e
      | .ok _ =>
        match input.doc with
        | none => .error .decode
        | some r => .ok r
  | none =>
    match input.doc with
    | none => .error .decode
    | some r => .ok r

/-- LoadXmlData (loader.go lines 203 to 249): decode the document, compute
the shared updated-at stamp from the header through CalculateDate, insert
the equipment elements into the identifier-keyed mapping in document
order, and flatten the mapping into the final collection. -/
def LoadXmlData (input : XmlInput) : Except LoadError (List EquipmentDetail) :=
  match decodeXml input with
  | .error e => .error e
  | .ok root =>
    match CalculateDate root.info with
    | .error e => .error e
    | .ok updatedAt => .ok (buildEquipmentMap updatedAt (allEquipments root))

/- ## Snapshot store and refresh cycles -/

/-- Modelled from the spec: the data manager holding the current snapshot
of each of the three feeds (its Go file is not available); replace and get
are per feed and independent. -/
structure DataManager where
  departures : List Record
  parkings : List Record
  equipments : List EquipmentDetail

/-- Modelled from the spec: replace the departures snapshot. -/
def UpdateDepartures (dm : DataManager) (d : List Record) : DataManager :=
  { dm with departures := d }

/-- Modelled from the spec: replace the parkings snapshot. -/
def UpdateParkings (dm : DataManager) (p : List Record) : DataManager :=
  { dm with parkings := p }

/-- Modelled from the spec: replace the equipments snapshot. -/
def UpdateEquipments (dm : DataManager) (e : List EquipmentDetail) : DataManager :=
  { dm with equipments := e }

/-- RefreshDepartures (loader.go lines 251 to 267): retrieve the bytes, run
LoadData with the departures consumer, and only on success replace the
departures snapshot.  The fetched argument stands for the outcome of
getFile. -/
def RefreshDepartures (dm : DataManager)
    (fetched : Except LoadError (List Record)) :
    Except LoadError Unit × DataManager :=
  match fetched with
  | .error e => (.error e, dm)
  | .ok records =>
    match LoadData departureConsumer records with
    | .error e => (.error e, dm)
    | .ok data => (.ok (), UpdateDepartures dm data)

/-- The load options of RefreshParkings (loader.go lines 278 to 282):
semicolon delimiter, FieldsPerRecord 0, first line a header and skipped. -/
def parkingLoadOptions : LoadDataOptions := ⟨true, ';', 0⟩

/-- RefreshParkings (loader.go lines 269 to 293): retrieve the bytes, run
LoadDataWithOptions with the parkings consumer and options, and only on
success replace the parkings snapshot. -/
def RefreshParkings (dm : DataManager)
    (fetched : Except LoadError (List Record)) :
    Except LoadError Unit × DataManager :=
  match fetched with
  | .error e => (.error e, dm)
  | .ok records =>
    match LoadDataWithOptions parkingConsumer parkingLoadOptions records with
    | .error e => (.error e, dm)
    | .ok parkings => (.ok (), UpdateParkings dm parkings)

/-- RefreshEquipments (loader.go lines 303 to 319): retrieve the bytes, run
LoadXmlData, and only on success replace the equipments snapshot. -/
def RefreshEquipments (dm : DataManager)
    (fetched : Except LoadError XmlInput) :
    Except LoadError Unit × DataManager :=
  match fetched with
  | .error e => (.error e, dm)
  | .ok input =>
    match LoadXmlData input with
    | .error e => (.error e, dm)
    | .ok eqs => (.ok (), UpdateEquipments dm eqs)

/- ## Refresh loops (cmd/sytral-rt/main.go) -/

/-- Nanoseconds in one second; a Go time.Duration is a count of
nanoseconds, and a duration d satisfies d.Seconds() < 1 exactly when its
nanosecond count is below this value. -/
def nanosPerSecond : Int := 1000000000

/-- Iterated refresh cycles of one feed after the initial eager load: one
refresh per retrieved input, threading the data manager; the sleep between
cycles carries no data. -/
def runCycles {I : Type}
    (refresh : DataManager → Except LoadError I → Except LoadError Unit × DataManager)
    (inputs : List (Except LoadError I)) (dm : DataManager) : DataManager :=
  inputs.foldl (fun dm0 i => (refresh dm0 i).2) dm

/-- RefreshDepartureLoop (main.go lines 122 to 135): a refresh interval
under one second disables background refreshing entirely (the loop returns
before its first cycle); otherwise the loop keeps refreshing, one cycle
per retrieved input. -/
def RefreshDepartureLoop (refreshInterval : Int)
    (inputs : List (Except LoadError (List Record))) (dm : DataManager) :
    DataManager :=
  if refreshInterval < nanosPerSecond then dm
  else runCycles RefreshDepartures inputs dm

/-- RefreshParkingLoop (main.go lines 137 to 146): no interval guard, the
loop keeps refreshing for every interval value. -/
def RefreshParkingLoop (refreshInterval : Int)
    (inputs : List (Except LoadError (List Record))) (dm : DataManager) :
    DataManager :=
  runCycles RefreshParkings inputs dm

/-- RefreshEquipmentLoop (main.go lines 148 to 157): no interval guard, the
loop keeps refreshing for every interval value. -/
def RefreshEquipmentLoop (refreshInterval : Int)
    (inputs : List (Except LoadError XmlInput)) (dm : DataManager) :
    DataManager :=
  runCycles RefreshEquipments inputs dm

/-- A concrete equipment document holding two equipment elements that
share one identifier but differ in status, used to exhibit the
deduplication behavior. -/
def dupRoot : Root :=
  ⟨⟨"2024-03-10", "07:15:30"⟩,
    ⟨[⟨[⟨[⟨"eq1", "L1", "S1", "broken"⟩, ⟨"eq1", "L1", "S1", "ok"⟩]⟩]⟩]⟩⟩

/- ## Facts about the time model -/

/-- time.norm leaves an in-range pair unchanged. -/
theorem goNorm_eq_self (hi lo base : Int) (h0 : 0 ≤ lo) (h1 : lo < base) :
    goNorm hi lo base = (hi, lo) := by
  have hneg : ¬lo < 0 := by omega
  have hge : ¬base ≤ lo := by omega
  simp [goNorm, hneg, hge]

/-- Day normalization leaves an in-range day unchanged. -/
theorem goDayNorm_eq_self (y m d : Int) (h1 : 1 ≤ d) (h2 : d ≤ daysInMonth y m) :
    goDayNorm y m d = (y, m, d) := by
  unfold goDayNorm
  exact if_pos ⟨h1, h2⟩

/-- A successful date parse passed the range checks. -/
theorem parseDate_valid {s : String} {y m d : Int}
    (h : parseDate s = some (y, m, d)) : validDate y m d = true := by
  unfold parseDate at h
  split at h
  · exact absurd h (by simp)
  · split at h
    · rename_i hv
      cases h
      exact hv
    · exact absurd h (by simp)

/-- A successful hour parse passed the range checks. -/
theorem parseHour_valid {s : String} {h mi se : Int}
    (hp : parseHour s = some (h, mi, se)) : validHour h mi se = true := by
  unfold parseHour at hp
  split at hp
  · exact absurd hp (by simp)
  · split at hp
    · rename_i hv
      cases hp
      exact hv
    · exact absurd hp (by simp)

/-- time.Date is the identity on a fully in-range wall-clock tuple. -/
theorem goDate_eq_self (y m d h mi s : Int)
    (hm1 : 1 ≤ m) (hm2 : m ≤ 12) (hd1 : 1 ≤ d) (hd2 : d ≤ daysInMonth y m)
    (hh0 : 0 ≤ h) (hh1 : h < 24) (hmi0 : 0 ≤ mi) (hmi1 : mi < 60)
    (hs0 : 0 ≤ s) (hs1 : s < 60) :
    goDate y m d h mi s = ⟨y, m, d, h, mi, s⟩ := by
  unfold goDate
  rw [goNorm_eq_self y (m - 1) 12 (by omega) (by omega),
    goNorm_eq_self mi s 60 hs0 hs1]
  simp only
  rw [goNorm_eq_self h mi 60 hmi0 hmi1]
  simp only
  rw [goNorm_eq_self d h 24 hh0 hh1]
  simp only
  rw [(by ring : m - 1 + 1 = m), goDayNorm_eq_self y m d hd1 hd2]

/-- C4: for every date string parsing as YYYY-MM-DD and hour string parsing
as HH:MM:SS, CalculateDate returns the timestamp whose calendar day is the
parsed date and whose time of day is the parsed hour, in the fixed
timezone, regardless of the AddDate decomposition used internally. -/
theorem C4_calculateDate_combines (sd sh : String) (y m d h mi s : Int)
    (hd : parseDate sd = some (y, m, d)) (hh : parseHour sh = some (h, mi, s)) :
    CalculateDate ⟨sd, sh⟩ = .ok ⟨y, m, d, h, mi, s⟩ := by
  have hvd := parseDate_valid hd
  have hvh := parseHour_valid hh
  simp only [validDate, Bool.and_eq_true, decide_eq_true_eq] at hvd
  simp only [validHour, Bool.and_eq_true, decide_eq_true_eq] at hvh
  obtain ⟨⟨⟨hm1, hm2⟩, hd1⟩, hd2⟩ := hvd
  obtain ⟨⟨⟨⟨⟨hh0, hh1⟩, hmi0⟩, hmi1⟩, hs0⟩, hs1⟩ := hvh
  simp only [CalculateDate, hd, hh]
  unfold addDate
  simp only
  rw [(by ring : (0 : Int) + y = y), (by ring : (1 : Int) + (m - 1) = m),
    (by ring : (1 : Int) + (d - 1) = d)]
  rw [goDate_eq_self y m d h mi s hm1 hm2 hd1 hd2 hh0 hh1 hmi0 hmi1 hs0 hs1]

/-- C4 witness: the concrete example from the spec. -/
theorem C4_calculateDate_combines_witness :
    CalculateDate ⟨"2024-03-10", "07:15:30"⟩ = .ok ⟨2024, 3, 10, 7, 15, 30⟩ :=
  C4_calculateDate_combines "2024-03-10" "07:15:30" 2024 3 10 7 15 30
    (by decide) (by decide)

/- ## Facts about the delimited loader -/

/-- A collecting consumer (consume appends, terminate is the identity) that
ends in a successful load has consumed exactly the records after its start
state. -/
theorem loadLoop_collect {c : LineConsumer (List Record)}
    (hc : ∀ s r, c.consume s r = .ok (s ++ [r])) (ht : ∀ s, c.terminate s = s) :
    ∀ (rs : List Record) (fpr : Int) (s out : List Record),
      loadLoop c rs false fpr s = .ok out → out = s ++ rs := by
  intro rs
  induction rs with
  | nil =>
    intro fpr s out h
    unfold loadLoop at h
    rw [ht] at h
    cases h
    simp
  | cons r rs ih =>
    intro fpr s out h
    unfold loadLoop at h
    cases hcs : csvStep fpr r with
    | error e => rw [hcs] at h; cases h
    | ok fpr1 =>
      rw [hcs] at h
      simp only [Bool.false_eq_true, if_false, hc] at h
      have := ih fpr1 (s ++ [r]) out h
      simp [this]

/-- With a positive FieldsPerRecord value, a sequence of records that all
carry exactly that many fields loads successfully and is consumed whole. -/
theorem loadLoop_all_match {c : LineConsumer (List Record)}
    (hc : ∀ s r, c.consume s r = .ok (s ++ [r])) (ht : ∀ s, c.terminate s = s) :
    ∀ (rs : List Record) (fpr : Int) (s : List Record), 0 < fpr →
      (∀ x ∈ rs, (x.length : Int) = fpr) →
      loadLoop c rs false fpr s = .ok (s ++ rs) := by
  intro rs
  induction rs with
  | nil =>
    intro fpr s _ _
    unfold loadLoop
    rw [ht]
    simp
  | cons r rs ih =>
    intro fpr s hpos hall
    unfold loadLoop
    have hcs : csvStep fpr r = .ok fpr := by
      unfold csvStep
      rw [if_pos hpos, if_pos (hall r (by simp))]
    rw [hcs]
    simp only [Bool.false_eq_true, if_false, hc]
    have := ih fpr (s ++ [r]) hpos (fun x hx => hall x (by simp [hx]))
    simp only [this]
    simp

/-- With a positive FieldsPerRecord value, a sequence holding one record
with a different field count fails the whole load with the field-count
error. -/
theorem loadLoop_mismatch {c : LineConsumer (List Record)}
    (hc : ∀ s r, c.consume s r = .ok (s ++ [r])) :
    ∀ (rs : List Record) (fpr : Int) (s : List Record), 0 < fpr →
      (∃ x ∈ rs, (x.length : Int) ≠ fpr) →
      loadLoop c rs false fpr s = .error .fieldCount := by
  intro rs
  induction rs with
  | nil =>
    intro fpr s _ hbad
    exact absurd hbad (by simp)
  | cons r rs ih =>
    intro fpr s hpos hbad
    unfold loadLoop
    by_cases hr : (r.length : Int) = fpr
    · have hcs : csvStep fpr r = .ok fpr := by
        unfold csvStep
        rw [if_pos hpos, if_pos hr]
      rw [hcs]
      simp only [Bool.false_eq_true, if_false, hc]
      apply ih fpr (s ++ [r]) hpos
      obtain ⟨x, hx, hxl⟩ := hbad
      rcases List.mem_cons.mp hx with hx1 | hx1
      · subst hx1
        exact absurd hr hxl
      · exact ⟨x, hx1, hxl⟩
    · have hcs : csvStep fpr r = .error .fieldCount := by
        unfold csvStep
        rw [if_pos hpos, if_neg hr]
      rw [hcs]

/-- C2: with the departures configuration of exactly 8 fields per record,
an input holding one record of a different field count fails the whole
load with the format error and the refresh cycle accepts none of its
records into a snapshot, while an input whose records all carry 8 fields
loads successfully. -/
theorem C2_departures_field_count (dm : DataManager) (records : List Record) :
    ((∃ x ∈ records, x.length ≠ 8) →
      LoadData departureConsumer records = .error .fieldCount ∧
      RefreshDepartures dm (.ok records) = (.error .fieldCount, dm)) ∧
    ((∀ x ∈ records, x.length = 8) →
      LoadData departureConsumer records = .ok records) := by
  constructor
  · intro hbad
    have hload : LoadData departureConsumer records = .error .fieldCount := by
      unfold LoadData LoadDataWithOptions
      apply loadLoop_mismatch (fun s r => rfl) records 8 [] (by omega)
      obtain ⟨x, hx, hxl⟩ := hbad
      exact ⟨x, hx, by exact_mod_cast hxl⟩
    exact ⟨hload, by simp [RefreshDepartures, hload]⟩
  · intro hall
    unfold LoadData LoadDataWithOptions
    have := loadLoop_all_match (c := departureConsumer) (fun s r => rfl)
      (fun s => rfl) records 8 [] (by omega)
      (fun x hx => by exact_mod_cast hall x hx)
    simpa using this

/-- C2 witness: one 7-field record among 8-field records rejects the batch,
and a well-formed batch loads. -/
theorem C2_departures_field_count_witness :
    (LoadData departureConsumer
        [["a", "b", "c", "d", "e", "f", "g", "h"], ["a", "b", "c", "d", "e", "f", "g"]] =
      .error .fieldCount) ∧
    LoadData departureConsumer [["a", "b", "c", "d", "e", "f", "g", "h"]] =
      .ok [["a", "b", "c", "d", "e", "f", "g", "h"]] := by
  constructor
  · exact ((C2_departures_field_count ⟨[], [], []⟩
      [["a", "b", "c", "d", "e", "f", "g", "h"], ["a", "b", "c", "d", "e", "f", "g"]]).1
      (by decide)).1
  · exact (C2_departures_field_count ⟨[], [], []⟩
      [["a", "b", "c", "d", "e", "f", "g", "h"]]).2 (by decide)

/-- C5 counterexample: a parkings input whose records have varying field
counts (a two-field header line, then a one-field record) fails the load
with the field-count error and leaves the snapshot alone, refuting the
claim that the parkings loader never enforces a field count. -/
theorem C5_counterexample :
    LoadDataWithOptions parkingConsumer parkingLoadOptions [["a", "b"], ["x"]] =
      .error .fieldCount ∧
    RefreshParkings ⟨[], [["p"]], []⟩ (.ok [["a", "b"], ["x"]]) =
      (.error .fieldCount, ⟨[], [["p"]], []⟩) := by
  constructor <;> rfl

/-- C5 as amended: with FieldsPerRecord 0 the field count of the first
record (the discarded header, nonempty as every record encoding/csv yields
is) becomes the enforced count: an input whose remaining records all match
the header's field count loads successfully and hands every non-header
record to the consumer, and an input holding a record of a different field
count fails the whole load. -/
theorem C5_parkings_field_count (r : Record) (rs : List Record)
    (hr : 0 < r.length) :
    ((∀ x ∈ rs, x.length = r.length) →
      LoadDataWithOptions parkingConsumer parkingLoadOptions (r :: rs) = .ok rs) ∧
    ((∃ x ∈ rs, x.length ≠ r.length) →
      LoadDataWithOptions parkingConsumer parkingLoadOptions (r :: rs) =
        .error .fieldCount) := by
  have hstep : ∀ rest : List Record,
      loadLoop parkingConsumer (r :: rest) true 0 [] =
        loadLoop parkingConsumer rest false (r.length : Int) [] := by
    intro rest
    have hcs : csvStep 0 r = .ok (r.length : Int) := by
      unfold csvStep
      rw [if_neg (by omega), if_pos rfl]
    conv_lhs => rw [loadLoop]
    rw [hcs]
    simp
  constructor
  · intro hall
    unfold LoadDataWithOptions
    show loadLoop parkingConsumer (r :: rs) true 0 [] = .ok rs
    rw [hstep]
    have := loadLoop_all_match (c := parkingConsumer) (fun s x => rfl)
      (fun s => rfl) rs (r.length : Int) [] (by exact_mod_cast hr)
      (fun x hx => by exact_mod_cast hall x hx)
    simpa using this
  · intro hbad
    unfold LoadDataWithOptions
    show loadLoop parkingConsumer (r :: rs) true 0 [] = .error .fieldCount
    rw [hstep]
    apply loadLoop_mismatch (fun s x => rfl) rs (r.length : Int) []
      (by exact_mod_cast hr)
    obtain ⟨x, hx, hxl⟩ := hbad
    exact ⟨x, hx, by exact_mod_cast hxl⟩

/-- C5 amended witness: a three-field header with matching records loads
and consumes the non-header records; a mismatching record fails the
load. -/
theorem C5_parkings_field_count_witness :
    (LoadDataWithOptions parkingConsumer parkingLoadOptions
        [["h1", "h2", "h3"], ["a", "b", "c"], ["d", "e", "f"]] =
      .ok [["a", "b", "c"], ["d", "e", "f"]]) ∧
    LoadDataWithOptions parkingConsumer parkingLoadOptions
        [["h1", "h2", "h3"], ["a", "b"]] = .error .fieldCount := by
  constructor
  · exact (C5_parkings_field_count ["h1", "h2", "h3"]
      [["a", "b", "c"], ["d", "e", "f"]] (by decide)).1 (by decide)
  · exact (C5_parkings_field_count ["h1", "h2", "h3"] [["a", "b"]]
      (by decide)).2 (by decide)

/-- C6: a delimited load configured with skipFirstLine never hands the
first physical record to the consumer; when the load succeeds, the
consumed records are exactly the records after the first, so an input of N
records yields N - 1 consumed records. -/
theorem C6_skip_first_line (options : LoadDataOptions) (records : List Record)
    (out : List Record) (hskip : options.skipFirstLine = true)
    (h : LoadDataWithOptions departureConsumer options records = .ok out) :
    out = records.tail ∧ out.length = records.length - 1 := by
  unfold LoadDataWithOptions at h
  rw [hskip] at h
  have hout : out = records.tail := by
    cases records with
    | nil =>
      unfold loadLoop at h
      cases h
      rfl
    | cons r rs =>
      unfold loadLoop at h
      cases hcs : csvStep options.nbFields r with
      | error e => rw [hcs] at h; cases h
      | ok fpr1 =>
        rw [hcs] at h
        simp only [if_true] at h
        have := loadLoop_collect (c := departureConsumer) (fun s x => rfl)
          (fun s => rfl) rs fpr1 [] out h
        simpa using this
  exact ⟨hout, by rw [hout]; simp⟩

/-- C6 witness: four records in, the three records after the header out. -/
theorem C6_skip_first_line_witness :
    ([["a"], ["b"], ["c"], ["d"]].tail = [["b"], ["c"], ["d"]]) ∧
    [["b"], ["c"], ["d"]] = ([["a"], ["b"], ["c"], ["d"]] : List Record).tail ∧
    ([["b"], ["c"], ["d"]] : List Record).length =
      ([["a"], ["b"], ["c"], ["d"]] : List Record).length - 1 :=
  ⟨by decide,
    C6_skip_first_line ⟨true, ';', -1⟩ [["a"], ["b"], ["c"], ["d"]]
      [["b"], ["c"], ["d"]] rfl (by rfl)⟩

/- ## Facts about the refresh cycles and loops -/

/-- C1: every failed refresh cycle of any feed — a failure of byte
retrieval or a failure of the load stage (format, decode, charset, date or
hour parse) — returns the error and leaves the feed's previously visible
snapshot exactly as it was. -/
theorem C1_failed_refresh_preserves_snapshot (dm : DataManager) :
    (∀ e, RefreshDepartures dm (.error e) = (.error e, dm)) ∧
    (∀ records e, LoadData departureConsumer records = .error e →
      RefreshDepartures dm (.ok records) = (.error e, dm)) ∧
    (∀ e, RefreshParkings dm (.error e) = (.error e, dm)) ∧
    (∀ records e,
      LoadDataWithOptions parkingConsumer parkingLoadOptions records = .error e →
      RefreshParkings dm (.ok records) = (.error e, dm)) ∧
    (∀ e, RefreshEquipments dm (.error e) = (.error e, dm)) ∧
    (∀ input e, LoadXmlData input = .error e →
      RefreshEquipments dm (.ok input) = (.error e, dm)) := by
  refine ⟨fun e => rfl, fun records e h => ?_, fun e => rfl,
    fun records e h => ?_, fun e => rfl, fun input e h => ?_⟩
  · simp [RefreshDepartures, h]
  · simp [RefreshParkings, h]
  · simp [RefreshEquipments, h]

/-- C1 witness: a retrieval failure and a format failure at concrete
inputs, each leaving the concrete snapshot in place. -/
theorem C1_failed_refresh_preserves_snapshot_witness :
    RefreshDepartures ⟨[["old"]], [], []⟩ (.error .retrieval) =
      (.error .retrieval, ⟨[["old"]], [], []⟩) ∧
    RefreshDepartures ⟨[["old"]], [], []⟩ (.ok [["short"]]) =
      (.error .fieldCount, ⟨[["old"]], [], []⟩) :=
  ⟨(C1_failed_refresh_preserves_snapshot ⟨[["old"]], [], []⟩).1 .retrieval,
    (C1_failed_refresh_preserves_snapshot ⟨[["old"]], [], []⟩).2.1
      [["short"]] .fieldCount rfl⟩

/-- C7: an XML document declaring a charset other than the default utf-8
and other than ISO-8859-1 fails the load with the unknown-charset error,
and the refresh cycle leaves the previous equipments snapshot visible. -/
theorem C7_unknown_charset (dm : DataManager) (charset : String)
    (doc : Option Root) (h1 : isUtf8 charset = false)
    (h2 : charset ≠ "ISO-8859-1") :
    LoadXmlData ⟨some charset, doc⟩ = .error .unknownCharset ∧
    RefreshEquipments dm (.ok ⟨some charset, doc⟩) =
      (.error .unknownCharset, dm) := by
  have hL : LoadXmlData ⟨some charset, doc⟩ = .error .unknownCharset := by
    unfold LoadXmlData decodeXml
    simp only [h1, Bool.false_eq_true, if_false]
    unfold getCharsetReader
    rw [if_neg h2]
  exact ⟨hL, by simp [RefreshEquipments, hL]⟩

/-- C7 witness: a declared UTF-16 charset fails the load and keeps the
concrete previous snapshot. -/
theorem C7_unknown_charset_witness :
    LoadXmlData ⟨some "UTF-16", none⟩ = .error .unknownCharset ∧
    RefreshEquipments ⟨[], [], [⟨"old", "L", "S", "ok", ⟨2020, 1, 1, 0, 0, 0⟩⟩]⟩
        (.ok ⟨some "UTF-16", none⟩) =
      (.error .unknownCharset,
        ⟨[], [], [⟨"old", "L", "S", "ok", ⟨2020, 1, 1, 0, 0, 0⟩⟩]⟩) :=
  C7_unknown_charset ⟨[], [], [⟨"old", "L", "S", "ok", ⟨2020, 1, 1, 0, 0, 0⟩⟩]⟩
    "UTF-16" none (by decide) (by decide)

/-- C8: exactly one refresh loop, the departures loop, treats an interval
under one second as refreshing disabled and performs no cycle after the
initial eager load, while the parkings and equipments loops apply no such
guard and keep running their cycles for every interval value. -/
theorem C8_refresh_interval_guard (dm : DataManager) (interval : Int)
    (ins : List (Except LoadError (List Record)))
    (xins : List (Except LoadError XmlInput)) :
    (interval < nanosPerSecond → RefreshDepartureLoop interval ins dm = dm) ∧
    (nanosPerSecond ≤ interval →
      RefreshDepartureLoop interval ins dm = runCycles RefreshDepartures ins dm) ∧
    RefreshParkingLoop interval ins dm = runCycles RefreshParkings ins dm ∧
    RefreshEquipmentLoop interval xins dm = runCycles RefreshEquipments xins dm := by
  refine ⟨fun h => ?_, fun h => ?_, rfl, rfl⟩
  · unfold RefreshDepartureLoop
    rw [if_pos h]
  · unfold RefreshDepartureLoop
    rw [if_neg (by omega)]

/-- C8 witness: at a zero interval the departures loop ignores its input
and performs no cycle, while the parkings loop still runs its cycle on the
same interval. -/
theorem C8_refresh_interval_guard_witness :
    RefreshDepartureLoop 0 [.ok [["a", "b", "c", "d", "e", "f", "g", "h"]]]
        ⟨[], [], []⟩ = ⟨[], [], []⟩ ∧
    RefreshParkingLoop 0 [.ok [["h1"], ["p1"]]] ⟨[], [], []⟩ =
      runCycles RefreshParkings [.ok [["h1"], ["p1"]]] ⟨[], [], []⟩ :=
  ⟨(C8_refresh_interval_guard ⟨[], [], []⟩ 0
      [.ok [["a", "b", "c", "d", "e", "f", "g", "h"]]] []).1 (by decide),
    (C8_refresh_interval_guard ⟨[], [], []⟩ 0 [.ok [["h1"], ["p1"]]] []).2.2.1⟩

/-- C10: an empty delimited input loads successfully — the finalize
capability is invoked on the untouched initial state — the empty
collection becomes the candidate snapshot, and the refresh cycle replaces
the previous departures snapshot with it. -/
theorem C10_empty_input_replaces_snapshot (dm : DataManager) :
    (∀ (σ : Type) (c : LineConsumer σ) (options : LoadDataOptions),
      LoadDataWithOptions c options [] = .ok (c.terminate c.init)) ∧
    LoadData departureConsumer [] = .ok [] ∧
    RefreshDepartures dm (.ok []) = (.ok (), UpdateDepartures dm []) ∧
    (RefreshDepartures dm (.ok [])).2.departures = [] :=
  ⟨fun σ c options => rfl, rfl, rfl, rfl⟩

/- ## Facts about the equipment mapping -/

/-- Overwriting insertion never changes the identifier sequence when the
identifier is present, and appends it when absent. -/
theorem insertEquipment_map_id (m : List EquipmentDetail) (ed : EquipmentDetail) :
    (insertEquipment m ed).map (fun x => x.id) =
      if m.any (fun x => x.id = ed.id) then m.map (fun x => x.id)
      else m.map (fun x => x.id) ++ [ed.id] := by
  unfold insertEquipment
  split
  · rw [List.map_map]
    apply List.map_congr_left
    intro x _
    simp only [Function.comp_apply]
    split
    · rename_i hx
      exact hx.symm
    · rfl
  · simp

/-- Overwriting insertion preserves distinctness of the identifiers. -/
theorem insertEquipment_nodup (m : List EquipmentDetail) (ed : EquipmentDetail)
    (h : (m.map (fun x => x.id)).Nodup) :
    ((insertEquipment m ed).map (fun x => x.id)).Nodup := by
  rw [insertEquipment_map_id]
  split
  · exact h
  · rename_i hany
    have hnot : ed.id ∉ m.map (fun x => x.id) := by
      intro hmem
      obtain ⟨x, hx, hxid⟩ := List.mem_map.mp hmem
      have : m.any (fun x => x.id = ed.id) = true :=
        List.any_eq_true.mpr ⟨x, hx, by simp [hxid]⟩
      simp [this] at hany
    simp [List.nodup_append, h, hnot]

/-- The mapping built by folding overwriting insertions has distinct
identifiers. -/
theorem foldl_insertEquipment_nodup (l : List EquipmentDetail) :
    ∀ m : List EquipmentDetail, (m.map (fun x => x.id)).Nodup →
      ((l.foldl insertEquipment m).map (fun x => x.id)).Nodup := by
  induction l with
  | nil => intro m h; exact h
  | cons x l ih =>
    intro m h
    exact ih (insertEquipment m x) (insertEquipment_nodup m x h)

/-- After replacing every entry carrying the inserted identifier, the
lookup of that identifier yields the inserted record, provided some entry
carried it. -/
theorem find?_map_replace_self (ed : EquipmentDetail) :
    ∀ m : List EquipmentDetail, m.any (fun x => x.id = ed.id) = true →
      (m.map (fun x => if x.id = ed.id then ed else x)).find?
        (fun e => e.id = ed.id) = some ed := by
  intro m
  induction m with
  | nil => intro h; simp at h
  | cons y m ih =>
    intro h
    by_cases hy : y.id = ed.id
    · simp [hy]
    · have hm : m.any (fun x => x.id = ed.id) = true := by
        simp only [List.any_cons, Bool.or_eq_true, decide_eq_true_eq] at h
        rcases h with h | h
        · exact absurd h hy
        · exact h
      simp [hy, ih hm]

/-- Replacing the entries of one identifier leaves the lookup of every
other identifier unchanged. -/
theorem find?_map_replace_ne (ed : EquipmentDetail) (i : String)
    (hne : ed.id ≠ i) :
    ∀ m : List EquipmentDetail,
      (m.map (fun x => if x.id = ed.id then ed else x)).find?
        (fun e => e.id = i) = m.find? (fun e => e.id = i) := by
  intro m
  induction m with
  | nil => rfl
  | cons y m ih =>
    by_cases hy : y.id = ed.id
    · simp [hy, hne, ih]
    · have hrep : (if y.id = ed.id then ed else y) = y := if_neg hy
      by_cases hyi : y.id = i
      · simp only [List.map_cons, hrep]
        rw [List.find?_cons_of_pos _ (by simpa using hyi),
          List.find?_cons_of_pos _ (by simpa using hyi)]
      · simp only [List.map_cons, hrep]
        rw [List.find?_cons_of_neg _ (by simpa using hyi),
          List.find?_cons_of_neg _ (by simpa using hyi)]
        exact ih

/-- Looking up the identifier of a freshly inserted record yields that
record. -/
theorem find?_insertEquipment_self (m : List EquipmentDetail)
    (ed : EquipmentDetail) :
    (insertEquipment m ed).find? (fun e => e.id = ed.id) = some ed := by
  unfold insertEquipment
  split
  · exact find?_map_replace_self ed m (by assumption)
  · rename_i hany
    rw [List.find?_append]
    have hnone : m.find? (fun e => e.id = ed.id) = none := by
      rw [List.find?_eq_none]
      intro x hx
      simp only [decide_eq_true_eq]
      intro hxid
      have : m.any (fun x => x.id = ed.id) = true :=
        List.any_eq_true.mpr ⟨x, hx, by simp [hxid]⟩
      simp [this] at hany
    rw [hnone]
    simp

/-- Inserting a record leaves the lookup of every other identifier
unchanged. -/
theorem find?_insertEquipment_ne (m : List EquipmentDetail)
    (ed : EquipmentDetail) (i : String) (hne : ed.id ≠ i) :
    (insertEquipment m ed).find? (fun e => e.id = i) =
      m.find? (fun e => e.id = i) := by
  unfold insertEquipment
  split
  · exact find?_map_replace_ne ed i hne m
  · rw [List.find?_append]
    have : List.find? (fun e => e.id = i) [ed] = none := by
      simp [List.find?, hne]
    rw [this]
    cases m.find? (fun e => e.id = i) <;> rfl

/-- Folding overwriting insertions realizes last-occurrence-wins lookup:
the final value at an identifier is the last traversed record carrying it,
and the start mapping answers only for identifiers the traversal never
carries. -/
theorem find?_foldl_insertEquipment (i : String) :
    ∀ (l m : List EquipmentDetail),
      (l.foldl insertEquipment m).find? (fun e => e.id = i) =
        ((l.filter (fun e => e.id = i)).getLast?).or
          (m.find? (fun e => e.id = i)) := by
  intro l
  induction l with
  | nil =>
    intro m
    simp
  | cons x l ih =>
    intro m
    simp only [List.foldl_cons]
    rw [ih (insertEquipment m x)]
    by_cases hx : x.id = i
    · rw [List.filter_cons_of_pos (by simpa using hx)]
      subst hx
      rw [find?_insertEquipment_self]
      cases hfl : l.filter (fun e => e.id = x.id) with
      | nil => simp
      | cons z zs =>
        rw [List.getLast?_cons_cons]
        have : (z :: zs).getLast? = some ((z :: zs).getLast (by simp)) := by
          simp [List.getLast?_eq_getLast]
        rw [this]
        simp
    · rw [List.filter_cons_of_neg (by simpa using hx)]
      rw [find?_insertEquipment_ne m x i hx]

/-- Distinct identifiers bound the per-identifier filter to one entry. -/
theorem filter_length_le_one_of_nodup (i : String) :
    ∀ l : List EquipmentDetail, (l.map (fun x => x.id)).Nodup →
      (l.filter (fun e => e.id = i)).length ≤ 1 := by
  intro l
  induction l with
  | nil => intro _; simp
  | cons x l ih =>
    intro h
    simp only [List.map_cons, List.nodup_cons] at h
    by_cases hx : x.id = i
    · rw [List.filter_cons_of_pos (by simpa using hx)]
      have : l.filter (fun e => e.id = i) = [] := by
        rw [List.filter_eq_nil_iff]
        intro z hz
        simp only [decide_eq_true_eq]
        intro hzi
        exact h.1 (List.mem_map.mpr ⟨z, hz, by rw [hzi, hx]⟩)
      rw [this]
      simp
    · rw [List.filter_cons_of_neg (by simpa using hx)]
      exact ih h.2

/-- With distinct identifiers, looking up the identifier of a member
returns that member. -/
theorem find?_eq_self_of_mem :
    ∀ l : List EquipmentDetail, (l.map (fun x => x.id)).Nodup →
      ∀ ed ∈ l, l.find? (fun e => e.id = ed.id) = some ed := by
  intro l
  induction l with
  | nil => intro _ ed hed; simp at hed
  | cons x l ih =>
    intro h ed hed
    simp only [List.map_cons, List.nodup_cons] at h
    rcases List.mem_cons.mp hed with hed1 | hed1
    · subst hed1
      simp [List.find?_cons]
    · have hx : x.id ≠ ed.id := by
        intro hcontra
        exact h.1 (List.mem_map.mpr ⟨ed, hed1, hcontra.symm⟩)
      rw [List.find?_cons_of_neg _ (by simpa using hx)]
      exact ih h.2 ed hed1

/-- C3: the equipment collection a successful XML load produces contains
at most one record per identifier; the record surviving for an identifier
carries the fields of the last equipment element with that identifier in
document traversal order (lines, then stations, then equipments), and
every traversed identifier survives. -/
theorem C3_equipment_dedup (input : XmlInput) (root : Root) (up : DateTime)
    (out : List EquipmentDetail) (hdoc : decodeXml input = .ok root)
    (hup : CalculateDate root.info = .ok up)
    (h : LoadXmlData input = .ok out) :
    (∀ i : String, (out.filter (fun e => e.id = i)).length ≤ 1) ∧
    (∀ ed ∈ out,
      (((allEquipments root).map (fun e => NewEquipmentDetail e up)).filter
          (fun e => e.id = ed.id)).getLast? = some ed) ∧
    (∀ e0 ∈ allEquipments root, ∃ ed ∈ out, ed.id = e0.id) := by
  have hout : out = ((allEquipments root).map
      (fun e => NewEquipmentDetail e up)).foldl insertEquipment [] := by
    unfold LoadXmlData at h
    simp only [hdoc, hup, Except.ok.injEq] at h
    rw [← h]
    unfold buildEquipmentMap
    rw [List.foldl_map]
  have hnodup : (out.map (fun x => x.id)).Nodup := by
    rw [hout]
    exact foldl_insertEquipment_nodup _ [] (by simp)
  refine ⟨fun i => filter_length_le_one_of_nodup i out hnodup, ?_, ?_⟩
  · intro ed hed
    have hfind := find?_eq_self_of_mem out hnodup ed hed
    rw [hout, find?_foldl_insertEquipment] at hfind
    simpa using hfind
  · intro e0 he0
    have hmem : NewEquipmentDetail e0 up ∈
        (allEquipments root).map (fun e => NewEquipmentDetail e up) :=
      List.mem_map.mpr ⟨e0, he0, rfl⟩
    have hne : ((allEquipments root).map
        (fun e => NewEquipmentDetail e up)).filter
          (fun e => e.id = e0.id) ≠ [] := by
      intro hnil
      have := List.filter_eq_nil_iff.mp hnil _ hmem
      simp [NewEquipmentDetail] at this
    cases hlast : (((allEquipments root).map
        (fun e => NewEquipmentDetail e up)).filter
          (fun e => e.id = e0.id)).getLast? with
    | none => exact absurd (List.getLast?_eq_none_iff.mp hlast) hne
    | some ed =>
      have hfind : out.find? (fun e => e.id = e0.id) = some ed := by
        rw [hout, find?_foldl_insertEquipment]
        simp [hlast]
      refine ⟨ed, List.mem_of_find?_eq_some hfind, ?_⟩
      have := List.find?_some hfind
      simpa using this

/-- C3 witness: the two-element duplicate document yields one record for
the identifier, whose fields match the later element in document order. -/
theorem C3_equipment_dedup_witness :
    (([⟨"eq1", "L1", "S1", "ok", ⟨2024, 3, 10, 7, 15, 30⟩⟩] :
        List EquipmentDetail).filter (fun e => e.id = "eq1")).length ≤ 1 ∧
    (((allEquipments dupRoot).map
        (fun e => NewEquipmentDetail e ⟨2024, 3, 10, 7, 15, 30⟩)).filter
          (fun e => e.id = "eq1")).getLast? =
      some ⟨"eq1", "L1", "S1", "ok", ⟨2024, 3, 10, 7, 15, 30⟩⟩ :=
  have h3 := C3_equipment_dedup ⟨none, some dupRoot⟩ dupRoot
    ⟨2024, 3, 10, 7, 15, 30⟩
    [⟨"eq1", "L1", "S1", "ok", ⟨2024, 3, 10, 7, 15, 30⟩⟩] rfl (by rfl) (by rfl)
  ⟨h3.1 "eq1",
    h3.2.1 ⟨"eq1", "L1", "S1", "ok", ⟨2024, 3, 10, 7, 15, 30⟩⟩ (by simp)⟩

end Sytralrt
